import Mathlib

/-!
Verification of the stock-ledger reconstruction, invoice tax computation,
invoice deletion and pagination logic of the Biotechcentre application.

The definitions below are shallow embeddings of the TypeScript source:

* `stockMovementsDaily` embeds the `stockMovements` memo of
  `src/pages/ProductStockReportPage.tsx` (per-day aggregated variant).
* `stockMovementsPerEvent` embeds the `stockMovements` memo of the
  per-event stock report page (the second document stored in
  `src/components/ui/Dialog.tsx`).
* The invoice tax definitions embed `src/components/InvoiceTemplate.tsx`
  and the `totals` memo of `src/components/InvoiceForm.tsx`.
* `deleteInvoice` embeds the `deleteInvoice` function of
  `src/pages/InvoicesPage.tsx`.
* `paginatedMovements` and `totalPages` embed the pagination of
  `src/pages/ProductStockReportPage.tsx`.

Dates and timestamps are modelled as integers (the code compares
`Date.getTime()` values; calendar-date strings map injectively to their
timestamps).  Quantities and stock levels are integers.  Monetary values
are rationals (the claims are about the algebraic contract; the source
computes with JavaScript numbers and rounds only when formatting).
-/

namespace Biotech

/-- A row of the `purchases` table, as used by the stock report pages. -/
structure Purchase where
  id : Nat
  purchase_date : Int
  created_at : Int
  quantity : Int
  reference_invoice : Option String
deriving DecidableEq, Repr

/-- The joined parent-invoice columns fetched with each invoice item
(`invoices!inner(invoice_number, invoice_date, ...)`).  A missing or empty
`invoice_date` string is modelled as `none`. -/
structure InvoiceInfo where
  invoice_number : Option String
  invoice_date : Option Int
deriving DecidableEq, Repr

/-- A row of the `invoice_items` table joined with its parent invoice. -/
structure SaleItem where
  id : Nat
  created_at : Int
  quantity : Int
  invoices : Option InvoiceInfo
deriving DecidableEq, Repr

/-- The date of a sale: `s.invoices?.invoice_date`, `none` when the parent
invoice or its date is missing. -/
def saleDate (s : SaleItem) : Option Int :=
  s.invoices.bind (fun i => i.invoice_date)

/-- `list.reduce((acc, x) => acc + f(x), 0)` as the source writes its
quantity totals. -/
def sumBy (f : α → Int) (l : List α) : Int :=
  l.foldl (fun acc x => acc + f x) 0

/-- One entry of the `dailyData` map of `ProductStockReportPage.tsx`:
aggregated purchase quantity, sale quantity and reference labels for one
calendar day. -/
structure DayEntry where
  purchase : Int
  sale : Int
  references : List String
deriving DecidableEq, Repr

/-- The `\x7b purchase: 0, sale: 0, references: [] \x7d` default used when a
day is first seen. -/
def emptyDay : DayEntry := { purchase := 0, sale := 0, references := [] }

/-- `Map.get` on the insertion-ordered association list modelling the JS
`Map`. -/
def getDay : List (Int × DayEntry) → Int → Option DayEntry
  | [], _ => none
  | (d', e') :: rest, d => if d' = d then some e' else getDay rest d

/-- `Map.set`: replace the binding when the key exists (keeping its
position), otherwise append the new binding at the end. -/
def setDay : List (Int × DayEntry) → Int → DayEntry → List (Int × DayEntry)
  | [], d, e => [(d, e)]
  | (d', e') :: rest, d, e =>
      if d' = d then (d, e) :: rest else (d', e') :: setDay rest d e

/-- `if (ref && !entry.references.includes(ref)) entry.references.push(ref)`. -/
def addRef (refs : List String) (r : Option String) : List String :=
  match r with
  | none => refs
  | some ref => if ref ∈ refs then refs else refs ++ [ref]

/-- Processing one purchase into `dailyData`
(`ProductStockReportPage.tsx` lines 154-162). -/
def applyPurchase (m : List (Int × DayEntry)) (p : Purchase) :
    List (Int × DayEntry) :=
  let entry := (getDay m p.purchase_date).getD emptyDay
  setDay m p.purchase_date
    { entry with
      purchase := entry.purchase + p.quantity
      references := addRef entry.references p.reference_invoice }

/-- Processing one sale into `dailyData`
(`ProductStockReportPage.tsx` lines 164-173).  The `none` branch mirrors
the `if (!dateStr) return;` guard. -/
def applySale (m : List (Int × DayEntry)) (s : SaleItem) :
    List (Int × DayEntry) :=
  match saleDate s with
  | none => m
  | some d =>
      let entry := (getDay m d).getD emptyDay
      setDay m d
        { entry with
          sale := entry.sale + s.quantity
          references := addRef entry.references
            (s.invoices.bind (fun i => i.invoice_number)) }

/-- The purchase date-range filter (`filteredPurchases`):
`(!start || date >= start) && (!end || date <= end)`. -/
def purchaseInWindow (fs fe : Option Int) (p : Purchase) : Bool :=
  (match fs with
   | none => true
   | some st => decide (st ≤ p.purchase_date)) &&
  (match fe with
   | none => true
   | some en => decide (p.purchase_date ≤ en))

/-- The sale date-range filter (`filteredSales`): a sale without a parent
invoice date is always dropped. -/
def saleInWindow (fs fe : Option Int) (s : SaleItem) : Bool :=
  match saleDate s with
  | none => false
  | some d =>
      (match fs with
       | none => true
       | some st => decide (st ≤ d)) &&
      (match fe with
       | none => true
       | some en => decide (d ≤ en))

/-- `absoluteInitialStock = stock_quantity - (totalPurchasesEver - totalSalesEver)`
(`ProductStockReportPage.tsx` lines 122-124). -/
def absoluteInitialStock (stock_quantity : Int) (purchases : List Purchase)
    (sales : List SaleItem) : Int :=
  stock_quantity -
    (sumBy Purchase.quantity purchases - sumBy SaleItem.quantity sales)

/-- `openingStockForPeriod` (`ProductStockReportPage.tsx` lines 126-135):
the absolute initial stock plus the net quantity moved strictly before the
window start. -/
def openingStockForPeriod (stock_quantity : Int) (purchases : List Purchase)
    (sales : List SaleItem) (fs : Option Int) : Int :=
  match fs with
  | none => absoluteInitialStock stock_quantity purchases sales
  | some st =>
      let purchasesBefore :=
        sumBy Purchase.quantity
          (purchases.filter (fun p => decide (p.purchase_date < st)))
      let salesBefore :=
        sumBy SaleItem.quantity
          (sales.filter (fun s =>
            match saleDate s with
            | none => false
            | some d => decide (d < st)))
      absoluteInitialStock stock_quantity purchases sales +
        (purchasesBefore - salesBefore)

/-- The `dailyData` map: all filtered purchases folded in first, then all
filtered sales. -/
def dailyData (purchases : List Purchase) (sales : List SaleItem) :
    List (Int × DayEntry) :=
  sales.foldl applySale (purchases.foldl applyPurchase [])

/-- A row of the per-day stock report
(`ProductStockReportPage.tsx` lines 25-33). -/
structure StockMovement where
  date : Int
  invoice : String
  openingStock : Int
  purchase : Int
  total : Int
  sale : Int
  closingStock : Int
deriving DecidableEq, Repr

/-- The single walk over the sorted dates carrying the running balance
(`ProductStockReportPage.tsx` lines 177-192).  The `none` branch mirrors
the non-null assertion `dailyData.get(date)!`; it is unreachable because
every walked date is a key of the map. -/
def buildRows (m : List (Int × DayEntry)) : List Int → Int → List StockMovement
  | [], _ => []
  | d :: rest, bal =>
      match getDay m d with
      | none => buildRows m rest bal
      | some e =>
          let openingStock := bal
          let total := openingStock + e.purchase
          let closingStock := total - e.sale
          { date := d
            invoice := String.intercalate ", " e.references
            openingStock := openingStock
            purchase := e.purchase
            total := total
            sale := e.sale
            closingStock := closingStock } :: buildRows m rest closingStock

/-- The `stockMovements` memo of `ProductStockReportPage.tsx`: filter both
event lists to the window, aggregate per day, sort the days ascending and
walk once from `openingStockForPeriod`. -/
def stockMovementsDaily (stock_quantity : Int) (purchases : List Purchase)
    (sales : List SaleItem) (fs fe : Option Int) : List StockMovement :=
  let filteredPurchases := purchases.filter (purchaseInWindow fs fe)
  let filteredSales := sales.filter (saleInWindow fs fe)
  let daily := dailyData filteredPurchases filteredSales
  let sortedDates :=
    List.insertionSort (fun a b : Int => a ≤ b) (daily.map Prod.fst)
  buildRows daily sortedDates
    (openingStockForPeriod stock_quantity purchases sales fs)

/-- The kind tag of a per-event movement (`type: 'Purchase' | 'Sale'`). -/
inductive MovKind where
  | purchaseKind
  | saleKind
deriving DecidableEq, Repr

/-- A pre-walk movement of the per-event report variant (the object
literals built at lines 148-166 of the per-event page).  The `'N/A'`
fallback for a missing reference is applied here as in the source; a
missing sale date (`|| ''`) is modelled as `none`. -/
structure MovementE where
  id : Nat
  kind : MovKind
  date : Option Int
  createdAt : Int
  quantity : Int
  quantityChange : Int
  reference : String
deriving DecidableEq, Repr

/-- A per-event movement decorated with the running balances. -/
structure StockMovementE where
  id : Nat
  kind : MovKind
  date : Option Int
  createdAt : Int
  quantity : Int
  quantityChange : Int
  reference : String
  openingStock : Int
  closingStock : Int
deriving DecidableEq, Repr

/-- The sort order of the per-event variant:
`sort((a, b) => new Date(a.createdAt).getTime() - new Date(b.createdAt).getTime())`. -/
def byCreatedAt (a b : MovementE) : Prop := a.createdAt ≤ b.createdAt

instance : DecidableRel byCreatedAt := fun a b => Int.decLe _ _

instance : IsTotal MovementE byCreatedAt :=
  ⟨fun a b => Int.le_total a.createdAt b.createdAt⟩

instance : IsTrans MovementE byCreatedAt :=
  ⟨fun _ _ _ h1 h2 => le_trans h1 h2⟩

/-- The purchase half of the merged movement list. -/
def purchaseMovement (p : Purchase) : MovementE :=
  { id := p.id
    kind := MovKind.purchaseKind
    date := some p.purchase_date
    createdAt := p.created_at
    quantity := p.quantity
    quantityChange := p.quantity
    reference := p.reference_invoice.getD "N/A" }

/-- The sale half of the merged movement list (`quantityChange := -quantity`). -/
def saleMovement (s : SaleItem) : MovementE :=
  { id := s.id
    kind := MovKind.saleKind
    date := saleDate s
    createdAt := s.created_at
    quantity := s.quantity
    quantityChange := -s.quantity
    reference := (s.invoices.bind (fun i => i.invoice_number)).getD "N/A" }

/-- The running-balance walk of the per-event variant
(lines 176-182 of the per-event page). -/
def walkE : List MovementE → Int → List StockMovementE
  | [], _ => []
  | m :: rest, bal =>
      let closingStock := bal + m.quantityChange
      { id := m.id
        kind := m.kind
        date := m.date
        createdAt := m.createdAt
        quantity := m.quantity
        quantityChange := m.quantityChange
        reference := m.reference
        openingStock := bal
        closingStock := closingStock } :: walkE rest closingStock

/-- The `stockMovements` memo of the per-event report page: merge, sort by
`created_at`, derive the initial opening stock from the total change, then
walk once. -/
def stockMovementsPerEvent (stock_quantity : Int) (purchases : List Purchase)
    (sales : List SaleItem) : List StockMovementE :=
  let purchaseMovements := purchases.map purchaseMovement
  let salesMovements := sales.map saleMovement
  let sortedMovements :=
    List.insertionSort byCreatedAt (purchaseMovements ++ salesMovements)
  let totalChange := sumBy MovementE.quantityChange sortedMovements
  let initialOpeningStock := stock_quantity - totalChange
  walkE sortedMovements initialOpeningStock

/-- An invoice line item as used by the tax computations: `quantity`,
`unit_price` (pre-tax) and `tax_rate` (a decimal such as 0.18). -/
structure InvItem where
  quantity : ℚ
  unit_price : ℚ
  tax_rate : ℚ
deriving DecidableEq, Repr

/-- `itemTaxableAmount = item.quantity * item.unit_price`
(`InvoiceTemplate.tsx` line 116). -/
def itemTaxableAmount (i : InvItem) : ℚ := i.quantity * i.unit_price

/-- `itemTotalCGST = itemTaxableAmount * item.tax_rate / 2`
(`InvoiceTemplate.tsx` line 117). -/
def itemTotalCGST (i : InvItem) : ℚ := itemTaxableAmount i * i.tax_rate / 2

/-- `itemTotalSGST = itemTaxableAmount * item.tax_rate / 2`
(`InvoiceTemplate.tsx` line 118). -/
def itemTotalSGST (i : InvItem) : ℚ := itemTaxableAmount i * i.tax_rate / 2

/-- `itemTotal = itemTaxableAmount + itemTotalCGST + itemTotalSGST`
(`InvoiceTemplate.tsx` line 119). -/
def itemTotal (i : InvItem) : ℚ :=
  itemTaxableAmount i + itemTotalCGST i + itemTotalSGST i

/-- `reduce((acc, x) => acc + f(x), 0)` over rationals. -/
def sumByQ (f : α → ℚ) (l : List α) : ℚ :=
  l.foldl (fun acc x => acc + f x) 0

/-- Invoice-level taxable amount (`InvoiceTemplate.tsx` line 31). -/
def invoiceTaxableAmount (items : List InvItem) : ℚ :=
  sumByQ (fun i => i.quantity * i.unit_price) items

/-- Invoice-level CGST total (`InvoiceTemplate.tsx` line 32). -/
def invoiceTotalCGST (items : List InvItem) : ℚ :=
  sumByQ (fun i => i.quantity * i.unit_price * i.tax_rate / 2) items

/-- Invoice-level SGST total (`InvoiceTemplate.tsx` line 33). -/
def invoiceTotalSGST (items : List InvItem) : ℚ :=
  sumByQ (fun i => i.quantity * i.unit_price * i.tax_rate / 2) items

/-- `grandTotal = taxableAmount + totalCGST + totalSGST`
(`InvoiceTemplate.tsx` line 34). -/
def invoiceGrandTotal (items : List InvItem) : ℚ :=
  invoiceTaxableAmount items + invoiceTotalCGST items + invoiceTotalSGST items

/-- `subtotal` of the `totals` memo (`InvoiceForm.tsx`). -/
def formSubtotal (items : List InvItem) : ℚ :=
  sumByQ (fun i => i.quantity * i.unit_price) items

/-- `tax` of the `totals` memo (`InvoiceForm.tsx`). -/
def formTax (items : List InvItem) : ℚ :=
  sumByQ (fun i => i.quantity * i.unit_price * i.tax_rate) items

/-- `grandTotal = subtotal + tax` of the `totals` memo (`InvoiceForm.tsx`). -/
def formGrandTotal (items : List InvItem) : ℚ :=
  formSubtotal items + formTax items

/-- An invoice line item as fetched by `deleteInvoice`
(`select('*, invoice_items(product_id, quantity)')`). -/
structure DBItem where
  product_id : String
  quantity : Int
deriving DecidableEq, Repr

/-- The slice of the database state that `deleteInvoice` touches:
`products` maps a product id to its `stock_quantity`; `invoices` holds
the invoice ids; `invoice_items` holds each item keyed by its invoice id. -/
structure DB where
  products : List (String × Int)
  invoices : List String
  invoice_items : List (String × DBItem)
deriving DecidableEq, Repr

/-- `select('stock_quantity').eq('id', pid).single()` on the products
table. -/
def lookupStock : List (String × Int) → String → Option Int
  | [], _ => none
  | (k, v) :: rest, pid => if k = pid then some v else lookupStock rest pid

/-- `update(\x7b stock_quantity: newStock \x7d).eq('id', pid)` on the
products table. -/
def setStock : List (String × Int) → String → Int → List (String × Int)
  | [], _, _ => []
  | (k, v) :: rest, pid, n =>
      if k = pid then (k, n) :: rest else (k, v) :: setStock rest pid n

/-- The credit-back loop of `deleteInvoice` (`InvoicesPage.tsx` lines
87-105): for each item, fetch the product's stock and write back
`stock + item.quantity`; a missing product row makes `single()` fail and
the whole deletion error out. -/
def creditItems : List (String × Int) → List DBItem →
    Except String (List (String × Int))
  | prods, [] => Except.ok prods
  | prods, item :: rest =>
      match lookupStock prods item.product_id with
      | none => Except.error "Failed to fetch product"
      | some stock =>
          creditItems (setStock prods item.product_id (stock + item.quantity)) rest

/-- `deleteInvoice` (`InvoicesPage.tsx` lines 77-120): fetch the invoice
with its items, credit each item's quantity back onto its product's
stock, then delete the invoice items and finally the invoice row. -/
def deleteInvoice (db : DB) (invoiceId : String) : Except String DB :=
  if invoiceId ∈ db.invoices then
    let items := (db.invoice_items.filter (fun it => it.1 = invoiceId)).map Prod.snd
    match creditItems db.products items with
    | Except.error e => Except.error e
    | Except.ok products' =>
        Except.ok
          { products := products'
            invoices := db.invoices.filter (fun i => i ≠ invoiceId)
            invoice_items := db.invoice_items.filter (fun it => ¬ it.1 = invoiceId) }
  else Except.error "Invoice not found"

/-- `const ITEMS_PER_PAGE = 20` (`ProductStockReportPage.tsx` line 18). -/
def ITEMS_PER_PAGE : Nat := 20

/-- `paginatedMovements = stockMovements.slice(startIndex, startIndex + ITEMS_PER_PAGE)`
with `startIndex = (currentPage - 1) * ITEMS_PER_PAGE`
(`ProductStockReportPage.tsx` lines 202-205). -/
def paginatedMovements (l : List StockMovement) (currentPage : Nat) :
    List StockMovement :=
  let startIndex := (currentPage - 1) * ITEMS_PER_PAGE
  (l.drop startIndex).take ITEMS_PER_PAGE

/-- `totalPages = Math.ceil(stockMovements.length / ITEMS_PER_PAGE)`
(`ProductStockReportPage.tsx` line 201). -/
def totalPages (l : List StockMovement) : Nat :=
  (l.length + ITEMS_PER_PAGE - 1) / ITEMS_PER_PAGE

/-! ### Lemmas about `sumBy` -/

theorem foldl_add_shift (f : α → Int) (l : List α) (b : Int) :
    l.foldl (fun acc x => acc + f x) b =
      b + l.foldl (fun acc x => acc + f x) 0 := by
  induction l generalizing b with
  | nil => simp
  | cons x xs ih =>
      simp only [List.foldl_cons]
      rw [ih (b + f x), ih (0 + f x)]
      ring

theorem foldl_add_eq (f : α → Int) (l : List α) (b : Int) :
    l.foldl (fun acc x => acc + f x) b = b + sumBy f l :=
  foldl_add_shift f l b

theorem sumBy_nil (f : α → Int) : sumBy f [] = 0 := rfl

theorem sumBy_cons (f : α → Int) (x : α) (l : List α) :
    sumBy f (x :: l) = f x + sumBy f l := by
  unfold sumBy
  rw [List.foldl_cons, foldl_add_shift f l (0 + f x)]
  ring

theorem sumBy_eq_sum_map (f : α → Int) (l : List α) :
    sumBy f l = (l.map f).sum := by
  induction l with
  | nil => rfl
  | cons x xs ih => rw [sumBy_cons, List.map_cons, List.sum_cons, ih]

theorem sumBy_perm (f : α → Int) {l l' : List α} (h : l.Perm l') :
    sumBy f l = sumBy f l' := by
  rw [sumBy_eq_sum_map, sumBy_eq_sum_map]
  exact (h.map f).sum_eq

theorem sumBy_congr (f g : α → Int) {l : List α}
    (h : ∀ x ∈ l, f x = g x) : sumBy f l = sumBy g l := by
  induction l with
  | nil => rfl
  | cons x xs ih =>
      rw [sumBy_cons, sumBy_cons, h x (List.mem_cons_self x xs),
        ih (fun y hy => h y (List.mem_cons_of_mem x hy))]

theorem sumBy_sub (f g : α → Int) (l : List α) :
    sumBy (fun x => f x - g x) l = sumBy f l - sumBy g l := by
  induction l with
  | nil => rfl
  | cons x xs ih => rw [sumBy_cons, sumBy_cons, sumBy_cons, ih]; ring

theorem sumBy_filter_split (f : α → Int) (l : List α) (p : α → Bool) :
    sumBy f (l.filter p) + sumBy f (l.filter (fun x => ! p x)) =
      sumBy f l := by
  induction l with
  | nil => simp [sumBy_nil]
  | cons x xs ih =>
      by_cases h : p x = true
      · simp [List.filter_cons, h, sumBy_cons]
        linarith [ih]
      · rw [Bool.not_eq_true] at h
        simp [List.filter_cons, h, sumBy_cons]
        linarith [ih]

theorem foldlQ_add_shift (f : α → ℚ) (l : List α) (b : ℚ) :
    l.foldl (fun acc x => acc + f x) b =
      b + l.foldl (fun acc x => acc + f x) 0 := by
  induction l generalizing b with
  | nil => simp
  | cons x xs ih =>
      simp only [List.foldl_cons]
      rw [ih (b + f x), ih (0 + f x)]
      ring

theorem sumByQ_cons (f : α → ℚ) (x : α) (l : List α) :
    sumByQ f (x :: l) = f x + sumByQ f l := by
  unfold sumByQ
  rw [List.foldl_cons, foldlQ_add_shift f l (0 + f x)]
  ring

theorem sumByQ_eq_sum_map (f : α → ℚ) (l : List α) :
    sumByQ f l = (l.map f).sum := by
  induction l with
  | nil => rfl
  | cons x xs ih => rw [sumByQ_cons, List.map_cons, List.sum_cons, ih]

theorem sumByQ_add (f g : α → ℚ) (l : List α) :
    sumByQ (fun x => f x + g x) l = sumByQ f l + sumByQ g l := by
  induction l with
  | nil => simp [sumByQ]
  | cons x xs ih => rw [sumByQ_cons, sumByQ_cons, sumByQ_cons, ih]; ring

/-! ### Lemmas about `getDay` and `setDay` -/

/-- The keys of the daily map, in insertion order. -/
def dayKeys (m : List (Int × DayEntry)) : List Int := m.map Prod.fst

theorem getDay_setDay_self (m : List (Int × DayEntry)) (d : Int) (e : DayEntry) :
    getDay (setDay m d e) d = some e := by
  induction m with
  | nil => simp [setDay, getDay]
  | cons hd tl ih =>
      obtain ⟨d', e'⟩ := hd
      by_cases h : d' = d
      · simp [setDay, h, getDay]
      · simp [setDay, h, getDay, ih]

theorem getDay_setDay_ne (m : List (Int × DayEntry)) (d d' : Int) (e : DayEntry)
    (h : d' ≠ d) : getDay (setDay m d e) d' = getDay m d' := by
  induction m with
  | nil => simp [setDay, getDay, Ne.symm h]
  | cons hd tl ih =>
      obtain ⟨d0, e0⟩ := hd
      by_cases h0 : d0 = d
      · subst h0
        simp [setDay, getDay, Ne.symm h]
      · simp [setDay, getDay, h0, ih]

theorem getDay_eq_none_iff (m : List (Int × DayEntry)) (d : Int) :
    getDay m d = none ↔ d ∉ dayKeys m := by
  induction m with
  | nil => simp [getDay, dayKeys]
  | cons hd tl ih =>
      obtain ⟨d', e'⟩ := hd
      by_cases h : d' = d
      · simp [getDay, h, dayKeys]
      · simp [getDay, h, dayKeys, ih, Ne.symm h]

theorem mem_dayKeys_of_getDay_some {m : List (Int × DayEntry)} {d : Int}
    {e : DayEntry} (h : getDay m d = some e) : d ∈ dayKeys m := by
  by_contra hc
  rw [← getDay_eq_none_iff] at hc
  rw [h] at hc
  exact Option.noConfusion hc

theorem mem_dayKeys_cons (d : Int) (hd : Int × DayEntry)
    (tl : List (Int × DayEntry)) :
    d ∈ dayKeys (hd :: tl) ↔ d = hd.1 ∨ d ∈ dayKeys tl := by
  simp [dayKeys]

theorem dayKeys_setDay_of_some (m : List (Int × DayEntry)) (d : Int)
    (e : DayEntry) (h : d ∈ dayKeys m) :
    dayKeys (setDay m d e) = dayKeys m := by
  induction m with
  | nil => simp [dayKeys] at h
  | cons hd tl ih =>
      obtain ⟨d', e'⟩ := hd
      by_cases h0 : d' = d
      · simp [setDay, h0, dayKeys]
      · have hmem : d ∈ dayKeys tl := by
          rcases (mem_dayKeys_cons d (d', e') tl).mp h with h1 | h1
          · exact absurd h1.symm h0
          · exact h1
        have heq := ih hmem
        simp only [dayKeys] at heq
        simp only [setDay, if_neg h0, dayKeys, List.map_cons]
        rw [heq]

theorem dayKeys_setDay_of_none (m : List (Int × DayEntry)) (d : Int)
    (e : DayEntry) (h : d ∉ dayKeys m) :
    dayKeys (setDay m d e) = dayKeys m ++ [d] := by
  induction m with
  | nil => simp [setDay, dayKeys]
  | cons hd tl ih =>
      obtain ⟨d', e'⟩ := hd
      have h1 : d' ≠ d := by
        intro hh
        exact h ((mem_dayKeys_cons d (d', e') tl).mpr (Or.inl hh.symm))
      have h2 : d ∉ dayKeys tl := by
        intro hh
        exact h ((mem_dayKeys_cons d (d', e') tl).mpr (Or.inr hh))
      have heq := ih h2
      simp only [dayKeys] at heq
      simp only [setDay, if_neg h1, dayKeys, List.map_cons, List.cons_append]
      rw [heq]

theorem mem_dayKeys_setDay (m : List (Int × DayEntry)) (d d' : Int)
    (e : DayEntry) :
    d' ∈ dayKeys (setDay m d e) ↔ d' ∈ dayKeys m ∨ d' = d := by
  by_cases h : d ∈ dayKeys m
  · rw [dayKeys_setDay_of_some m d e h]
    constructor
    · exact fun hh => Or.inl hh
    · rintro (hh | hh)
      · exact hh
      · exact hh ▸ h
  · rw [dayKeys_setDay_of_none m d e h]
    simp

theorem nodup_dayKeys_setDay (m : List (Int × DayEntry)) (d : Int)
    (e : DayEntry) (h : (dayKeys m).Nodup) :
    (dayKeys (setDay m d e)).Nodup := by
  by_cases hm : d ∈ dayKeys m
  · rw [dayKeys_setDay_of_some m d e hm]; exact h
  · rw [dayKeys_setDay_of_none m d e hm]
    simpa [List.nodup_append] using ⟨h, hm⟩

/-! ### Per-day components of the `dailyData` map -/

/-- The aggregated purchase quantity recorded for day `d` (0 when the day
is absent). -/
def entryP (m : List (Int × DayEntry)) (d : Int) : Int :=
  match getDay m d with
  | none => 0
  | some e => e.purchase

/-- The aggregated sale quantity recorded for day `d` (0 when the day is
absent). -/
def entryS (m : List (Int × DayEntry)) (d : Int) : Int :=
  match getDay m d with
  | none => 0
  | some e => e.sale

theorem entryP_applyPurchase (m : List (Int × DayEntry)) (p : Purchase)
    (d : Int) :
    entryP (applyPurchase m p) d =
      entryP m d + (if p.purchase_date = d then p.quantity else 0) := by
  unfold applyPurchase
  by_cases h : p.purchase_date = d
  · subst h
    rw [entryP, getDay_setDay_self]
    cases hg : getDay m p.purchase_date with
    | none => simp [entryP, hg, emptyDay]
    | some e => simp [entryP, hg]
  · rw [entryP, getDay_setDay_ne m p.purchase_date d _ (Ne.symm h)]
    simp [entryP, h]

theorem entryP_applySale (m : List (Int × DayEntry)) (s : SaleItem)
    (d : Int) : entryP (applySale m s) d = entryP m d := by
  unfold applySale
  cases hs : saleDate s with
  | none => rfl
  | some d0 =>
      by_cases h : d0 = d
      · subst h
        rw [entryP, getDay_setDay_self]
        cases hg : getDay m d0 with
        | none => simp [entryP, hg, emptyDay]
        | some e => simp [entryP, hg]
      · rw [entryP, getDay_setDay_ne m d0 d _ (Ne.symm h)]
        rfl

theorem entryS_applySale (m : List (Int × DayEntry)) (s : SaleItem)
    (d : Int) :
    entryS (applySale m s) d =
      entryS m d + (if saleDate s = some d then s.quantity else 0) := by
  unfold applySale
  cases hs : saleDate s with
  | none => simp
  | some d0 =>
      by_cases h : d0 = d
      · subst h
        rw [entryS, getDay_setDay_self]
        cases hg : getDay m d0 with
        | none => simp [entryS, hg, emptyDay]
        | some e => simp [entryS, hg]
      · rw [entryS, getDay_setDay_ne m d0 d _ (Ne.symm h)]
        simp [entryS, h]

theorem entryS_applyPurchase (m : List (Int × DayEntry)) (p : Purchase)
    (d : Int) : entryS (applyPurchase m p) d = entryS m d := by
  unfold applyPurchase
  by_cases h : p.purchase_date = d
  · subst h
    rw [entryS, getDay_setDay_self]
    cases hg : getDay m p.purchase_date with
    | none => simp [entryS, hg, emptyDay]
    | some e => simp [entryS, hg]
  · rw [entryS, getDay_setDay_ne m p.purchase_date d _ (Ne.symm h)]
    rfl

theorem entryP_foldPurchases (ps : List Purchase)
    (m : List (Int × DayEntry)) (d : Int) :
    entryP (ps.foldl applyPurchase m) d =
      entryP m d +
        sumBy Purchase.quantity
          (ps.filter (fun p => decide (p.purchase_date = d))) := by
  induction ps generalizing m with
  | nil => simp [sumBy_nil]
  | cons p ps ih =>
      rw [List.foldl_cons, ih, entryP_applyPurchase]
      by_cases h : p.purchase_date = d
      · simp [h, List.filter_cons, sumBy_cons]
        ring
      · simp [h, List.filter_cons]

theorem entryP_foldSales (ss : List SaleItem) (m : List (Int × DayEntry))
    (d : Int) : entryP (ss.foldl applySale m) d = entryP m d := by
  induction ss generalizing m with
  | nil => rfl
  | cons s ss ih => rw [List.foldl_cons, ih, entryP_applySale]

theorem entryS_foldSales (ss : List SaleItem) (m : List (Int × DayEntry))
    (d : Int) :
    entryS (ss.foldl applySale m) d =
      entryS m d +
        sumBy SaleItem.quantity
          (ss.filter (fun s => decide (saleDate s = some d))) := by
  induction ss generalizing m with
  | nil => simp [sumBy_nil]
  | cons s ss ih =>
      rw [List.foldl_cons, ih, entryS_applySale]
      by_cases h : saleDate s = some d
      · simp [h, List.filter_cons, sumBy_cons]
        ring
      · simp [h, List.filter_cons]

theorem entryS_foldPurchases (ps : List Purchase)
    (m : List (Int × DayEntry)) (d : Int) :
    entryS (ps.foldl applyPurchase m) d = entryS m d := by
  induction ps generalizing m with
  | nil => rfl
  | cons p ps ih => rw [List.foldl_cons, ih, entryS_applyPurchase]

theorem entryP_dailyData (ps : List Purchase) (ss : List SaleItem) (d : Int) :
    entryP (dailyData ps ss) d =
      sumBy Purchase.quantity
        (ps.filter (fun p => decide (p.purchase_date = d))) := by
  unfold dailyData
  rw [entryP_foldSales, entryP_foldPurchases]
  simp [entryP, getDay]

theorem entryS_dailyData (ps : List Purchase) (ss : List SaleItem) (d : Int) :
    entryS (dailyData ps ss) d =
      sumBy SaleItem.quantity
        (ss.filter (fun s => decide (saleDate s = some d))) := by
  unfold dailyData
  rw [entryS_foldSales, entryS_foldPurchases]
  simp [entryS, getDay]

/-! ### Keys of the `dailyData` map -/

theorem mem_dayKeys_applyPurchase (m : List (Int × DayEntry)) (p : Purchase)
    (d : Int) :
    d ∈ dayKeys (applyPurchase m p) ↔
      d ∈ dayKeys m ∨ d = p.purchase_date := by
  unfold applyPurchase
  exact mem_dayKeys_setDay m p.purchase_date d _

theorem mem_dayKeys_applySale (m : List (Int × DayEntry)) (s : SaleItem)
    (d : Int) :
    d ∈ dayKeys (applySale m s) ↔
      d ∈ dayKeys m ∨ saleDate s = some d := by
  unfold applySale
  cases hs : saleDate s with
  | none => simp
  | some d0 =>
      rw [mem_dayKeys_setDay]
      constructor
      · rintro (h | h)
        · exact Or.inl h
        · exact Or.inr (by rw [h])
      · rintro (h | h)
        · exact Or.inl h
        · exact Or.inr (Option.some_injective _ h.symm)

theorem mem_dayKeys_foldPurchases (ps : List Purchase)
    (m : List (Int × DayEntry)) (d : Int) :
    d ∈ dayKeys (ps.foldl applyPurchase m) ↔
      d ∈ dayKeys m ∨ ∃ p ∈ ps, p.purchase_date = d := by
  induction ps generalizing m with
  | nil => simp
  | cons p ps ih =>
      rw [List.foldl_cons, ih, mem_dayKeys_applyPurchase]
      constructor
      · rintro ((h | h) | ⟨p', hp', hd⟩)
        · exact Or.inl h
        · exact Or.inr ⟨p, List.mem_cons_self p ps, h.symm⟩
        · exact Or.inr ⟨p', List.mem_cons_of_mem p hp', hd⟩
      · rintro (h | ⟨p', hp', hd⟩)
        · exact Or.inl (Or.inl h)
        · rcases List.mem_cons.mp hp' with h1 | h1
          · exact Or.inl (Or.inr (h1 ▸ hd.symm))
          · exact Or.inr ⟨p', h1, hd⟩

theorem mem_dayKeys_foldSales (ss : List SaleItem)
    (m : List (Int × DayEntry)) (d : Int) :
    d ∈ dayKeys (ss.foldl applySale m) ↔
      d ∈ dayKeys m ∨ ∃ s ∈ ss, saleDate s = some d := by
  induction ss generalizing m with
  | nil => simp
  | cons s ss ih =>
      rw [List.foldl_cons, ih, mem_dayKeys_applySale]
      constructor
      · rintro ((h | h) | ⟨s', hs', hd⟩)
        · exact Or.inl h
        · exact Or.inr ⟨s, List.mem_cons_self s ss, h⟩
        · exact Or.inr ⟨s', List.mem_cons_of_mem s hs', hd⟩
      · rintro (h | ⟨s', hs', hd⟩)
        · exact Or.inl (Or.inl h)
        · rcases List.mem_cons.mp hs' with h1 | h1
          · exact Or.inl (Or.inr (h1 ▸ hd))
          · exact Or.inr ⟨s', h1, hd⟩

theorem mem_dayKeys_dailyData (ps : List Purchase) (ss : List SaleItem)
    (d : Int) :
    d ∈ dayKeys (dailyData ps ss) ↔
      (∃ p ∈ ps, p.purchase_date = d) ∨ ∃ s ∈ ss, saleDate s = some d := by
  unfold dailyData
  rw [mem_dayKeys_foldSales, mem_dayKeys_foldPurchases]
  simp [dayKeys]

theorem nodup_dayKeys_applyPurchase (m : List (Int × DayEntry))
    (p : Purchase) (h : (dayKeys m).Nodup) :
    (dayKeys (applyPurchase m p)).Nodup :=
  nodup_dayKeys_setDay m _ _ h

theorem nodup_dayKeys_applySale (m : List (Int × DayEntry)) (s : SaleItem)
    (h : (dayKeys m).Nodup) : (dayKeys (applySale m s)).Nodup := by
  unfold applySale
  cases saleDate s with
  | none => exact h
  | some d0 => exact nodup_dayKeys_setDay m _ _ h

theorem nodup_dayKeys_dailyData (ps : List Purchase) (ss : List SaleItem) :
    (dayKeys (dailyData ps ss)).Nodup := by
  unfold dailyData
  have h1 : ∀ (ps' : List Purchase) (m : List (Int × DayEntry)),
      (dayKeys m).Nodup → (dayKeys (ps'.foldl applyPurchase m)).Nodup := by
    intro ps'
    induction ps' with
    | nil => exact fun m h => h
    | cons p ps' ih =>
        intro m h
        exact ih _ (nodup_dayKeys_applyPurchase m p h)
  have h2 : ∀ (ss' : List SaleItem) (m : List (Int × DayEntry)),
      (dayKeys m).Nodup → (dayKeys (ss'.foldl applySale m)).Nodup := by
    intro ss'
    induction ss' with
    | nil => exact fun m h => h
    | cons s ss' ih =>
        intro m h
        exact ih _ (nodup_dayKeys_applySale m s h)
  exact h2 ss _ (h1 ps [] (by simp [dayKeys]))

/-! ### Totals over the `dailyData` map -/

/-- The total purchase quantity stored in the map. -/
def mapPT (m : List (Int × DayEntry)) : Int :=
  sumBy (fun pe => pe.2.purchase) m

/-- The total sale quantity stored in the map. -/
def mapST (m : List (Int × DayEntry)) : Int :=
  sumBy (fun pe => pe.2.sale) m

theorem mapPT_setDay_none (m : List (Int × DayEntry)) (d : Int)
    (e : DayEntry) (h : getDay m d = none) :
    mapPT (setDay m d e) = mapPT m + e.purchase := by
  induction m with
  | nil => simp [setDay, mapPT, sumBy_cons, sumBy_nil]
  | cons hd tl ih =>
      obtain ⟨d', e'⟩ := hd
      by_cases h0 : d' = d
      · simp [getDay, h0] at h
      · simp only [getDay, if_neg h0] at h
        simp only [setDay, if_neg h0, mapPT, sumBy_cons] at ih ⊢
        rw [ih h]
        ring

theorem mapPT_setDay_some (m : List (Int × DayEntry)) (d : Int)
    (e ex : DayEntry) (h : getDay m d = some ex) :
    mapPT (setDay m d e) = mapPT m - ex.purchase + e.purchase := by
  induction m with
  | nil => simp [getDay] at h
  | cons hd tl ih =>
      obtain ⟨d', e'⟩ := hd
      by_cases h0 : d' = d
      · simp only [getDay, if_pos h0] at h
        obtain rfl : e' = ex := Option.some_injective _ h
        simp only [setDay, if_pos h0, mapPT, sumBy_cons]
        ring
      · simp only [getDay, if_neg h0] at h
        simp only [setDay, if_neg h0, mapPT, sumBy_cons] at ih ⊢
        rw [ih h]
        ring

theorem mapST_setDay_none (m : List (Int × DayEntry)) (d : Int)
    (e : DayEntry) (h : getDay m d = none) :
    mapST (setDay m d e) = mapST m + e.sale := by
  induction m with
  | nil => simp [setDay, mapST, sumBy_cons, sumBy_nil]
  | cons hd tl ih =>
      obtain ⟨d', e'⟩ := hd
      by_cases h0 : d' = d
      · simp [getDay, h0] at h
      · simp only [getDay, if_neg h0] at h
        simp only [setDay, if_neg h0, mapST, sumBy_cons] at ih ⊢
        rw [ih h]
        ring

theorem mapST_setDay_some (m : List (Int × DayEntry)) (d : Int)
    (e ex : DayEntry) (h : getDay m d = some ex) :
    mapST (setDay m d e) = mapST m - ex.sale + e.sale := by
  induction m with
  | nil => simp [getDay] at h
  | cons hd tl ih =>
      obtain ⟨d', e'⟩ := hd
      by_cases h0 : d' = d
      · simp only [getDay, if_pos h0] at h
        obtain rfl : e' = ex := Option.some_injective _ h
        simp only [setDay, if_pos h0, mapST, sumBy_cons]
        ring
      · simp only [getDay, if_neg h0] at h
        simp only [setDay, if_neg h0, mapST, sumBy_cons] at ih ⊢
        rw [ih h]
        ring

theorem mapPT_applyPurchase (m : List (Int × DayEntry)) (p : Purchase) :
    mapPT (applyPurchase m p) = mapPT m + p.quantity := by
  unfold applyPurchase
  cases hg : getDay m p.purchase_date with
  | none =>
      rw [mapPT_setDay_none _ _ _ hg]
      simp [hg, emptyDay]
  | some ex =>
      rw [mapPT_setDay_some _ _ _ ex hg]
      simp [hg]
      ring

theorem mapPT_applySale (m : List (Int × DayEntry)) (s : SaleItem) :
    mapPT (applySale m s) = mapPT m := by
  unfold applySale
  cases hs : saleDate s with
  | none => rfl
  | some d0 =>
      cases hg : getDay m d0 with
      | none =>
          rw [mapPT_setDay_none _ _ _ hg]
          simp [hg, emptyDay]
      | some ex =>
          rw [mapPT_setDay_some _ _ _ ex hg]
          simp [hg]

theorem mapST_applySale (m : List (Int × DayEntry)) (s : SaleItem) :
    mapST (applySale m s) =
      mapST m + (match saleDate s with
                 | none => 0
                 | some _ => s.quantity) := by
  unfold applySale
  cases hs : saleDate s with
  | none => simp
  | some d0 =>
      cases hg : getDay m d0 with
      | none =>
          rw [mapST_setDay_none _ _ _ hg]
          simp [hg, emptyDay]
      | some ex =>
          rw [mapST_setDay_some _ _ _ ex hg]
          simp [hg]
          ring

theorem mapST_applyPurchase (m : List (Int × DayEntry)) (p : Purchase) :
    mapST (applyPurchase m p) = mapST m := by
  unfold applyPurchase
  cases hg : getDay m p.purchase_date with
  | none =>
      rw [mapST_setDay_none _ _ _ hg]
      simp [hg, emptyDay]
  | some ex =>
      rw [mapST_setDay_some _ _ _ ex hg]
      simp [hg]

theorem mapPT_dailyData (ps : List Purchase) (ss : List SaleItem) :
    mapPT (dailyData ps ss) = sumBy Purchase.quantity ps := by
  unfold dailyData
  have h2 : ∀ (ss' : List SaleItem) (m : List (Int × DayEntry)),
      mapPT (ss'.foldl applySale m) = mapPT m := by
    intro ss'
    induction ss' with
    | nil => exact fun m => rfl
    | cons s ss' ih =>
        intro m
        rw [List.foldl_cons, ih, mapPT_applySale]
  have h1 : ∀ (ps' : List Purchase) (m : List (Int × DayEntry)),
      mapPT (ps'.foldl applyPurchase m) =
        mapPT m + sumBy Purchase.quantity ps' := by
    intro ps'
    induction ps' with
    | nil => intro m; simp [sumBy_nil]
    | cons p ps' ih =>
        intro m
        rw [List.foldl_cons, ih, mapPT_applyPurchase, sumBy_cons]
        ring
  rw [h2, h1]
  simp [mapPT, sumBy_nil]

theorem mapST_dailyData (ps : List Purchase) (ss : List SaleItem) :
    mapST (dailyData ps ss) =
      sumBy (fun s => match saleDate s with
                      | none => 0
                      | some _ => s.quantity) ss := by
  unfold dailyData
  have h1 : ∀ (ps' : List Purchase) (m : List (Int × DayEntry)),
      mapST (ps'.foldl applyPurchase m) = mapST m := by
    intro ps'
    induction ps' with
    | nil => exact fun m => rfl
    | cons p ps' ih =>
        intro m
        rw [List.foldl_cons, ih, mapST_applyPurchase]
  have h2 : ∀ (ss' : List SaleItem) (m : List (Int × DayEntry)),
      mapST (ss'.foldl applySale m) =
        mapST m + sumBy (fun s => match saleDate s with
                                  | none => 0
                                  | some _ => s.quantity) ss' := by
    intro ss'
    induction ss' with
    | nil => intro m; simp [sumBy_nil]
    | cons s ss' ih =>
        intro m
        rw [List.foldl_cons, ih, mapST_applySale, sumBy_cons]
        ring
  rw [h2, h1]
  simp [mapST, sumBy_nil]

/-! ### The running-balance walk -/

/-- The closing stock of the last row, or the starting balance when there
are no rows. -/
def lastClosing (rows : List StockMovement) (bal : Int) : Int :=
  match rows.getLast? with
  | none => bal
  | some r => r.closingStock

theorem lastClosing_cons (x : StockMovement) (l : List StockMovement)
    (b : Int) : lastClosing (x :: l) b = lastClosing l x.closingStock := by
  cases l with
  | nil => simp [lastClosing]
  | cons y l =>
      unfold lastClosing
      rw [List.getLast?_cons_cons]
      cases hq : (y :: l).getLast? with
      | none =>
          rw [List.getLast?_eq_none_iff] at hq
          exact absurd hq (List.cons_ne_nil y l)
      | some r => rfl

/-- The net change contributed by day `d` of the map. -/
def dayNet (m : List (Int × DayEntry)) (d : Int) : Int :=
  match getDay m d with
  | none => 0
  | some e => e.purchase - e.sale

theorem buildRows_lastClosing (m : List (Int × DayEntry)) :
    ∀ (dates : List Int) (bal : Int),
      lastClosing (buildRows m dates bal) bal =
        bal + sumBy (dayNet m) dates := by
  intro dates
  induction dates with
  | nil => intro bal; simp [buildRows, lastClosing, sumBy_nil]
  | cons d rest ih =>
      intro bal
      rw [sumBy_cons]
      cases hg : getDay m d with
      | none =>
          simp only [buildRows, hg]
          rw [ih bal]
          simp [dayNet, hg]
      | some e =>
          simp only [buildRows, hg]
          rw [lastClosing_cons, ih]
          simp only [dayNet, hg]
          ring

theorem sumBy_dayNet_keys (m : List (Int × DayEntry))
    (h : (dayKeys m).Nodup) :
    sumBy (dayNet m) (dayKeys m) = mapPT m - mapST m := by
  induction m with
  | nil => simp [dayKeys, sumBy_nil, mapPT, mapST]
  | cons hd tl ih =>
      obtain ⟨d, e⟩ := hd
      have hkeys : dayKeys ((d, e) :: tl) = d :: dayKeys tl := by
        simp [dayKeys]
      rw [hkeys] at h ⊢
      have hnotin : d ∉ dayKeys tl := (List.nodup_cons.mp h).1
      have hnodup : (dayKeys tl).Nodup := (List.nodup_cons.mp h).2
      rw [sumBy_cons]
      have hhead : dayNet ((d, e) :: tl) d = e.purchase - e.sale := by
        simp [dayNet, getDay]
      have hcongr : sumBy (dayNet ((d, e) :: tl)) (dayKeys tl) =
          sumBy (dayNet tl) (dayKeys tl) := by
        apply sumBy_congr
        intro d' hd'
        have hne : d ≠ d' := fun hh => hnotin (hh ▸ hd')
        simp [dayNet, getDay, hne]
      rw [hhead, hcongr, ih hnodup]
      simp only [mapPT, mapST, sumBy_cons]
      ring

theorem buildRows_chain (m : List (Int × DayEntry)) :
    ∀ (dates : List Int) (bal : Int),
      List.Chain' (fun a b => a.closingStock = b.openingStock)
        (buildRows m dates bal) ∧
      (∀ r, (buildRows m dates bal).head? = some r → r.openingStock = bal) := by
  intro dates
  induction dates with
  | nil => intro bal; simp [buildRows]
  | cons d rest ih =>
      intro bal
      cases hg : getDay m d with
      | none =>
          simp only [buildRows, hg]
          exact ih bal
      | some e =>
          simp only [buildRows, hg]
          constructor
          · rw [List.chain'_cons']
            refine ⟨?_, (ih _).1⟩
            intro y hy
            rw [((ih _).2 y hy)]
          · intro r hr
            simp only [List.head?_cons, Option.some_inj] at hr
            rw [← hr]

theorem buildRows_map_date_sublist (m : List (Int × DayEntry)) :
    ∀ (dates : List Int) (bal : Int),
      ((buildRows m dates bal).map StockMovement.date).Sublist dates := by
  intro dates
  induction dates with
  | nil => intro bal; simp [buildRows]
  | cons d rest ih =>
      intro bal
      cases hg : getDay m d with
      | none =>
          simp only [buildRows, hg]
          exact (ih bal).cons d
      | some e =>
          simp only [buildRows, hg, List.map_cons]
          exact (ih _).cons₂ d

/-- A per-day row with its reference string blanked, used to compare
outputs up to the ordering of same-day reference labels. -/
def eraseRefs (r : StockMovement) : StockMovement := { r with invoice := "" }

theorem buildRows_congr (m₁ m₂ : List (Int × DayEntry))
    (hsome : ∀ d, (getDay m₁ d).isSome = (getDay m₂ d).isSome)
    (hP : ∀ d, entryP m₁ d = entryP m₂ d)
    (hS : ∀ d, entryS m₁ d = entryS m₂ d) :
    ∀ (dates : List Int) (bal : Int),
      (buildRows m₁ dates bal).map eraseRefs =
        (buildRows m₂ dates bal).map eraseRefs := by
  intro dates
  induction dates with
  | nil => intro bal; simp [buildRows]
  | cons d rest ih =>
      intro bal
      cases hg1 : getDay m₁ d with
      | none =>
          cases hg2 : getDay m₂ d with
          | none =>
              simp only [buildRows, hg1, hg2]
              exact ih bal
          | some e2 =>
              have := hsome d
              rw [hg1, hg2] at this
              simp at this
      | some e1 =>
          cases hg2 : getDay m₂ d with
          | none =>
              have := hsome d
              rw [hg1, hg2] at this
              simp at this
          | some e2 =>
              have hp : e1.purchase = e2.purchase := by
                have := hP d
                simpa [entryP, hg1, hg2] using this
              have hs : e1.sale = e2.sale := by
                have := hS d
                simpa [entryS, hg1, hg2] using this
              simp only [buildRows, hg1, hg2, List.map_cons]
              rw [hp, hs]
              refine List.cons_eq_cons.mpr ⟨?_, ih _⟩
              simp [eraseRefs]

/-! ### The per-event walk -/

/-- The closing stock of the last per-event row, or the starting balance
when there are no rows. -/
def lastClosingE (rows : List StockMovementE) (bal : Int) : Int :=
  match rows.getLast? with
  | none => bal
  | some r => r.closingStock

theorem lastClosingE_cons (x : StockMovementE) (l : List StockMovementE)
    (b : Int) : lastClosingE (x :: l) b = lastClosingE l x.closingStock := by
  cases l with
  | nil => simp [lastClosingE]
  | cons y l =>
      unfold lastClosingE
      rw [List.getLast?_cons_cons]
      cases hq : (y :: l).getLast? with
      | none =>
          rw [List.getLast?_eq_none_iff] at hq
          exact absurd hq (List.cons_ne_nil y l)
      | some r => rfl

theorem walkE_lastClosing :
    ∀ (l : List MovementE) (bal : Int),
      lastClosingE (walkE l bal) bal = bal + sumBy MovementE.quantityChange l := by
  intro l
  induction l with
  | nil => intro bal; simp [walkE, lastClosingE, sumBy_nil]
  | cons x xs ih =>
      intro bal
      simp only [walkE]
      rw [lastClosingE_cons, ih, sumBy_cons]
      ring

theorem walkE_chain :
    ∀ (l : List MovementE) (bal : Int),
      List.Chain' (fun a b => a.closingStock = b.openingStock) (walkE l bal) ∧
      (∀ r, (walkE l bal).head? = some r → r.openingStock = bal) := by
  intro l
  induction l with
  | nil => intro bal; simp [walkE]
  | cons x xs ih =>
      intro bal
      simp only [walkE]
      constructor
      · rw [List.chain'_cons']
        refine ⟨?_, (ih _).1⟩
        intro y hy
        rw [((ih _).2 y hy)]
      · intro r hr
        simp only [List.head?_cons, Option.some_inj] at hr
        rw [← hr]

theorem walkE_map_createdAt :
    ∀ (l : List MovementE) (bal : Int),
      (walkE l bal).map StockMovementE.createdAt =
        l.map MovementE.createdAt := by
  intro l
  induction l with
  | nil => intro bal; simp [walkE]
  | cons x xs ih =>
      intro bal
      simp only [walkE, List.map_cons, ih]

/-! ### Unfolding equations for the two reconstructors -/

theorem stockMovementsDaily_eq (q : Int) (ps : List Purchase)
    (ss : List SaleItem) (fs fe : Option Int) :
    stockMovementsDaily q ps ss fs fe =
      buildRows
        (dailyData (ps.filter (purchaseInWindow fs fe))
          (ss.filter (saleInWindow fs fe)))
        (List.insertionSort (fun a b : Int => a ≤ b)
          ((dailyData (ps.filter (purchaseInWindow fs fe))
            (ss.filter (saleInWindow fs fe))).map Prod.fst))
        (openingStockForPeriod q ps ss fs) := rfl

theorem stockMovementsPerEvent_eq (q : Int) (ps : List Purchase)
    (ss : List SaleItem) :
    stockMovementsPerEvent q ps ss =
      walkE
        (List.insertionSort byCreatedAt
          (ps.map purchaseMovement ++ ss.map saleMovement))
        (q - sumBy MovementE.quantityChange
          (List.insertionSort byCreatedAt
            (ps.map purchaseMovement ++ ss.map saleMovement))) := rfl

theorem sumByQ_congr (f g : α → ℚ) {l : List α}
    (h : ∀ x ∈ l, f x = g x) : sumByQ f l = sumByQ g l := by
  induction l with
  | nil => rfl
  | cons x xs ih =>
      rw [sumByQ_cons, sumByQ_cons, h x (List.mem_cons_self x xs),
        ih (fun y hy => h y (List.mem_cons_of_mem x hy))]

/-! ### Claim theorems -/

/-- Claim C2: balance continuity.  In both reconstructor variants, for
every input and every pair of adjacent output rows the `closingStock` of
the earlier row equals the `openingStock` of the later row (stated as a
`Chain'` over the output list, which is exactly the adjacent-rows
property for every output length). -/
theorem balance_continuity (q : Int) (ps : List Purchase)
    (ss : List SaleItem) (fs fe : Option Int) :
    List.Chain' (fun a b => a.closingStock = b.openingStock)
      (stockMovementsDaily q ps ss fs fe) ∧
    List.Chain' (fun a b => a.closingStock = b.openingStock)
      (stockMovementsPerEvent q ps ss) := by
  constructor
  · rw [stockMovementsDaily_eq]
    exact (buildRows_chain _ _ _).1
  · rw [stockMovementsPerEvent_eq]
    exact (walkE_chain _ _).1

/-- Claim C7: invoice line tax.  Per line item the CGST and SGST halves
are equal and sum to `taxableAmount * taxRate`, the line total is
`taxableAmount + taxAmount`, and the invoice-level figures of both the
invoice template and the invoice form are the sums of the per-line
values, with `grandTotal = subtotal + tax`. -/
theorem invoice_line_tax (items : List InvItem) (i : InvItem) :
    itemTotalCGST i = itemTotalSGST i ∧
    itemTotalCGST i + itemTotalSGST i = itemTaxableAmount i * i.tax_rate ∧
    itemTotal i = itemTaxableAmount i + itemTaxableAmount i * i.tax_rate ∧
    invoiceTaxableAmount items = (items.map itemTaxableAmount).sum ∧
    invoiceTotalCGST items + invoiceTotalSGST items =
      (items.map (fun j => itemTaxableAmount j * j.tax_rate)).sum ∧
    invoiceGrandTotal items = (items.map itemTotal).sum ∧
    formSubtotal items = (items.map itemTaxableAmount).sum ∧
    formTax items = (items.map (fun j => itemTaxableAmount j * j.tax_rate)).sum ∧
    formGrandTotal items = formSubtotal items + formTax items ∧
    invoiceGrandTotal items = formGrandTotal items := by
  have hsubtotal : invoiceTaxableAmount items = (items.map itemTaxableAmount).sum := by
    rw [invoiceTaxableAmount, sumByQ_eq_sum_map]
    rfl
  have htax : invoiceTotalCGST items + invoiceTotalSGST items =
      (items.map (fun j => itemTaxableAmount j * j.tax_rate)).sum := by
    rw [invoiceTotalCGST, invoiceTotalSGST, ← sumByQ_add]
    rw [sumByQ_congr _ (fun j => itemTaxableAmount j * j.tax_rate)
      (fun j _ => by unfold itemTaxableAmount; ring)]
    rw [sumByQ_eq_sum_map]
  have hformTax : formTax items =
      (items.map (fun j => itemTaxableAmount j * j.tax_rate)).sum := by
    rw [formTax, sumByQ_eq_sum_map]
    rfl
  have hgrand : invoiceGrandTotal items = (items.map itemTotal).sum := by
    rw [invoiceGrandTotal, invoiceTotalCGST, invoiceTotalSGST, add_assoc,
      ← sumByQ_add]
    rw [invoiceTaxableAmount, ← sumByQ_add]
    rw [sumByQ_congr _ itemTotal (fun j _ => by
      unfold itemTotal itemTotalCGST itemTotalSGST itemTaxableAmount
      ring)]
    rw [sumByQ_eq_sum_map]
  have hformSub : formSubtotal items = (items.map itemTaxableAmount).sum :=
    hsubtotal
  have hform : formGrandTotal items = (items.map itemTotal).sum := by
    rw [formGrandTotal, hformTax, hformSub,
      ← sumByQ_eq_sum_map, ← sumByQ_eq_sum_map, ← sumByQ_eq_sum_map,
      ← sumByQ_add]
    apply sumByQ_congr
    intro j _
    unfold itemTotal itemTotalCGST itemTotalSGST itemTaxableAmount
    ring
  refine ⟨rfl, by unfold itemTotalCGST itemTotalSGST; ring,
    by unfold itemTotal itemTotalCGST itemTotalSGST; ring,
    hsubtotal, htax, hgrand, hsubtotal, hformTax, rfl, ?_⟩
  rw [hgrand, hform]

/-- Claim C3: the reconstructor's implied absolute initial stock is
`currentQuantity - (totalPurchased - totalSold)` and is invariant under
any permutation of the purchase and sale lists (it is computed before any
date filtering and takes no filter input). -/
theorem absolute_initial_stock (q : Int) (ps ps' : List Purchase)
    (ss ss' : List SaleItem) (hp : ps.Perm ps') (hs : ss.Perm ss') :
    absoluteInitialStock q ps ss =
      q - ((ps.map Purchase.quantity).sum - (ss.map SaleItem.quantity).sum) ∧
    absoluteInitialStock q ps ss = absoluteInitialStock q ps' ss' := by
  constructor
  · unfold absoluteInitialStock
    rw [sumBy_eq_sum_map, sumBy_eq_sum_map]
  · unfold absoluteInitialStock
    rw [sumBy_perm Purchase.quantity hp, sumBy_perm SaleItem.quantity hs]

/-- A purchase used by the witness of C3. -/
def w3a : Purchase :=
  { id := 31, purchase_date := 2, created_at := 1, quantity := 4,
    reference_invoice := some "W3A" }

/-- A second purchase used by the witness of C3. -/
def w3b : Purchase :=
  { id := 32, purchase_date := 6, created_at := 2, quantity := 9,
    reference_invoice := none }

/-- A sale used by the witness of C3. -/
def w3s : SaleItem :=
  { id := 33, created_at := 3, quantity := 5,
    invoices := some { invoice_number := some "W3S", invoice_date := some 7 } }

/-- Witness for C3 at concrete inputs. -/
theorem absolute_initial_stock_witness :
    absoluteInitialStock 12 [w3a, w3b] [w3s] =
      12 - (([w3a, w3b].map Purchase.quantity).sum -
        ([w3s].map SaleItem.quantity).sum) ∧
    absoluteInitialStock 12 [w3a, w3b] [w3s] =
      absoluteInitialStock 12 [w3b, w3a] [w3s] :=
  absolute_initial_stock 12 [w3a, w3b] [w3b, w3a] [w3s] [w3s]
    (by decide) (by decide)

/-- The purchase of the C9 scenario: 8 units on day 4. -/
def c9Purchase : Purchase :=
  { id := 91, purchase_date := 4, created_at := 1, quantity := 8,
    reference_invoice := some "PUR-9" }

/-- The sale of the C9 scenario: 5 units on an invoice whose date is
missing. -/
def c9Sale : SaleItem :=
  { id := 92, created_at := 2, quantity := 5,
    invoices := some { invoice_number := some "INV-9", invoice_date := none } }

/-- Claim C9: a sale whose parent invoice date is missing is counted in
the total-sales sum behind `absoluteInitialStock` (here
`20 - (8 - 5) = 17`), contributes nothing to the before-window sum, and
produces no output row, so the final row's `closingStock` (25) differs
from `currentQuantity` (20) although the window (start day 1, no end)
covers every dated event. -/
theorem undated_sale_breaks_terminal :
    absoluteInitialStock 20 [c9Purchase] [c9Sale] = 17 ∧
    openingStockForPeriod 20 [c9Purchase] [c9Sale] (some 1) = 17 ∧
    (stockMovementsDaily 20 [c9Purchase] [c9Sale] (some 1) none).map
      StockMovement.closingStock = [25] ∧
    (25 : Int) ≠ 20 := by
  refine ⟨rfl, rfl, rfl, by decide⟩

/-- Claim C10: pagination is a faithful partition.  For every page
`p ≥ 1` the paginated list is the slice of the full list starting at
`(p-1)*ITEMS_PER_PAGE` of length at most `ITEMS_PER_PAGE`, and
concatenating pages `1 .. totalPages` in order restores the full list. -/
theorem pagination_partition (l : List StockMovement) (p : Nat)
    (hp : 1 ≤ p) :
    paginatedMovements l p =
      (l.drop ((p - 1) * ITEMS_PER_PAGE)).take ITEMS_PER_PAGE ∧
    (paginatedMovements l p).length ≤ ITEMS_PER_PAGE ∧
    ((List.range (totalPages l)).map
      (fun i => paginatedMovements l (i + 1))).flatten = l := by
  have hlen : ∀ (p' : Nat), (paginatedMovements l p').length ≤ ITEMS_PER_PAGE := by
    intro p'
    simp only [paginatedMovements, List.length_take]
    exact min_le_left _ _
  have hjoin : ∀ (k : Nat),
      ((List.range k).map (fun i => paginatedMovements l (i + 1))).flatten =
        l.take (k * ITEMS_PER_PAGE) := by
    intro k
    induction k with
    | zero => simp
    | succ k ih =>
        rw [List.range_succ, List.map_append, List.flatten_append, ih]
        have hpage : paginatedMovements l (k + 1) =
            (l.drop (k * ITEMS_PER_PAGE)).take ITEMS_PER_PAGE := by
          simp [paginatedMovements]
        rw [Nat.succ_mul, List.take_add]
        simp [hpage]
  have hbound : l.length ≤ totalPages l * ITEMS_PER_PAGE := by
    unfold totalPages ITEMS_PER_PAGE
    omega
  refine ⟨rfl, hlen p, ?_⟩
  rw [hjoin (totalPages l)]
  exact List.take_of_length_le hbound

/-- The purchase of the C1 counterexample: 30 units on day 5. -/
def c1Purchase : Purchase :=
  { id := 11, purchase_date := 5, created_at := 3, quantity := 30,
    reference_invoice := some "PUR-1" }

/-- The sale of the C1 counterexample: 10 units on an invoice with no
date. -/
def c1Sale : SaleItem :=
  { id := 12, created_at := 4, quantity := 10,
    invoices := some { invoice_number := some "INV-1", invoice_date := none } }

/-- Counterexample to claim C1 as stated: with `currentQuantity = 50`,
one purchase of 30 and one sale of 10 whose parent invoice date is
missing, and no window filter at all, the last row of the per-day
reconstructor closes at 60, not 50. -/
theorem terminal_equality_cx :
    ((stockMovementsDaily 50 [c1Purchase] [c1Sale] none none).map
      StockMovement.closingStock).getLast? = some 60 ∧
    (60 : Int) ≠ 50 := by
  refine ⟨rfl, by decide⟩

/-- Claim C1 (amended): terminal equality.  For any `windowStart` and no
`windowEnd`, the closing stock of the last row equals the product's
`stock_quantity` — for the per-day variant provided every sale carries a
parent invoice date (the opening balance absorbs the events strictly
before the window), and for the per-event variant unconditionally. -/
theorem terminal_equality (q : Int) (ps : List Purchase)
    (ss : List SaleItem) (fs : Option Int)
    (hdated : ∀ s ∈ ss, (saleDate s).isSome) :
    (∀ r, (stockMovementsDaily q ps ss fs none).getLast? = some r →
      r.closingStock = q) ∧
    (∀ r, (stockMovementsPerEvent q ps ss).getLast? = some r →
      r.closingStock = q) := by
  constructor
  · have key : lastClosing (stockMovementsDaily q ps ss fs none)
        (openingStockForPeriod q ps ss fs) = q := by
      rw [stockMovementsDaily_eq, buildRows_lastClosing]
      rw [sumBy_perm
        (dayNet (dailyData (ps.filter (purchaseInWindow fs none))
          (ss.filter (saleInWindow fs none))))
        (List.perm_insertionSort (fun a b : Int => a ≤ b) _)]
      have hkeys : (dailyData (ps.filter (purchaseInWindow fs none))
          (ss.filter (saleInWindow fs none))).map Prod.fst =
          dayKeys (dailyData (ps.filter (purchaseInWindow fs none))
            (ss.filter (saleInWindow fs none))) := rfl
      rw [hkeys, sumBy_dayNet_keys _ (nodup_dayKeys_dailyData _ _)]
      rw [mapPT_dailyData, mapST_dailyData]
      have hsales : sumBy (fun s => match saleDate s with
          | none => 0
          | some _ => s.quantity) (ss.filter (saleInWindow fs none)) =
          sumBy SaleItem.quantity (ss.filter (saleInWindow fs none)) := by
        apply sumBy_congr
        intro s hsm
        cases hd : saleDate s with
        | none =>
            have := hdated s (List.mem_of_mem_filter hsm)
            rw [hd] at this
            simp at this
        | some d => simp
      rw [hsales]
      cases fs with
      | none =>
          have hf1 : ps.filter (purchaseInWindow none none) = ps :=
            List.filter_eq_self.mpr (fun a _ => rfl)
          have hf2 : ss.filter (saleInWindow none none) = ss := by
            apply List.filter_eq_self.mpr
            intro s hsm
            cases hd : saleDate s with
            | none =>
                have := hdated s hsm
                rw [hd] at this
                simp at this
            | some d => simp [saleInWindow, hd]
          rw [hf1, hf2]
          show absoluteInitialStock q ps ss +
            (sumBy Purchase.quantity ps - sumBy SaleItem.quantity ss) = q
          unfold absoluteInitialStock
          ring
      | some st =>
          have hpfilter : ps.filter (purchaseInWindow (some st) none) =
              ps.filter (fun p => ! decide (p.purchase_date < st)) := by
            apply List.filter_congr
            intro p _
            simp [purchaseInWindow, ← decide_not, not_lt]
          have hsfilter : ss.filter (saleInWindow (some st) none) =
              ss.filter (fun s => ! (match saleDate s with
                | none => false
                | some d => decide (d < st))) := by
            apply List.filter_congr
            intro s hsm
            cases hd : saleDate s with
            | none =>
                have := hdated s hsm
                rw [hd] at this
                simp at this
            | some d => simp [saleInWindow, hd, ← decide_not, not_lt]
          rw [hpfilter, hsfilter]
          have hsplitP := sumBy_filter_split Purchase.quantity ps
            (fun p => decide (p.purchase_date < st))
          have hsplitS := sumBy_filter_split SaleItem.quantity ss
            (fun s => match saleDate s with
              | none => false
              | some d => decide (d < st))
          show absoluteInitialStock q ps ss +
              (sumBy Purchase.quantity
                (ps.filter (fun p => decide (p.purchase_date < st))) -
               sumBy SaleItem.quantity
                (ss.filter (fun s => match saleDate s with
                  | none => false
                  | some d => decide (d < st)))) +
              (sumBy Purchase.quantity
                (ps.filter (fun p => ! decide (p.purchase_date < st))) -
               sumBy SaleItem.quantity
                (ss.filter (fun s => ! (match saleDate s with
                  | none => false
                  | some d => decide (d < st))))) = q
          unfold absoluteInitialStock
          linarith [hsplitP, hsplitS]
    intro r hr
    unfold lastClosing at key
    rw [hr] at key
    exact key
  · have key : lastClosingE (stockMovementsPerEvent q ps ss)
        (q - sumBy MovementE.quantityChange
          (List.insertionSort byCreatedAt
            (ps.map purchaseMovement ++ ss.map saleMovement))) = q := by
      rw [stockMovementsPerEvent_eq, walkE_lastClosing]
      ring
    intro r hr
    unfold lastClosingE at key
    rw [hr] at key
    exact key

/-- The purchase of the C1 witness. -/
def w1Purchase : Purchase :=
  { id := 13, purchase_date := 5, created_at := 3, quantity := 30,
    reference_invoice := some "PUR-1W" }

/-- The sale of the C1 witness (dated, unlike `c1Sale`). -/
def w1Sale : SaleItem :=
  { id := 14, created_at := 4, quantity := 10,
    invoices := some { invoice_number := some "INV-1W",
                       invoice_date := some 10 } }

/-- The last per-day row of the C1 witness scenario. -/
def w1DailyRow : StockMovement :=
  { date := 10, invoice := "INV-1W", openingStock := 60, purchase := 0,
    total := 60, sale := 10, closingStock := 50 }

/-- Witness for the amended C1 at concrete dated inputs with a binding
window start (day 7): the pre-window purchase is absorbed into the
opening balance and the last per-day row still closes at the current
quantity 50. -/
theorem terminal_equality_witness : w1DailyRow.closingStock = 50 :=
  (terminal_equality 50 [w1Purchase] [w1Sale] (some 7) (by decide)).1
    w1DailyRow (by rfl)

/-- The purchase of the C5 counterexample: created first (timestamp 5)
but dated day 10. -/
def c5Purchase : Purchase :=
  { id := 51, purchase_date := 10, created_at := 5, quantity := 1,
    reference_invoice := none }

/-- The sale of the C5 counterexample: created second (timestamp 6) but
dated day 2. -/
def c5Sale : SaleItem :=
  { id := 52, created_at := 6, quantity := 1,
    invoices := some { invoice_number := none, invoice_date := some 2 } }

/-- Counterexample to claim C5 as stated: the per-event variant sorts by
`created_at`, not by event date, so a purchase dated day 10 but created
earlier precedes a sale dated day 2, and the output is not ascending by
event date. -/
theorem chronological_order_cx :
    (stockMovementsPerEvent 0 [c5Purchase] [c5Sale]).map
      StockMovementE.date = [some 10, some 2] ∧
    ¬ List.Pairwise (fun a b : StockMovementE => a.date.getD 0 ≤ b.date.getD 0)
      (stockMovementsPerEvent 0 [c5Purchase] [c5Sale]) := by
  refine ⟨rfl, by decide⟩

/-- Claim C5 (amended): the per-day variant's rows are ascending by event
date; the per-event variant's rows are ascending by the `created_at`
insertion timestamp (which it sorts by), not by event date. -/
theorem chronological_order (q : Int) (ps : List Purchase)
    (ss : List SaleItem) (fs fe : Option Int) :
    List.Pairwise (fun a b : StockMovement => a.date ≤ b.date)
      (stockMovementsDaily q ps ss fs fe) ∧
    List.Pairwise (fun a b : StockMovementE => a.createdAt ≤ b.createdAt)
      (stockMovementsPerEvent q ps ss) := by
  constructor
  · rw [stockMovementsDaily_eq]
    have hsorted : List.Sorted (fun a b : Int => a ≤ b)
        (List.insertionSort (fun a b : Int => a ≤ b)
          ((dailyData (ps.filter (purchaseInWindow fs fe))
            (ss.filter (saleInWindow fs fe))).map Prod.fst)) :=
      List.sorted_insertionSort _ _
    have hsub := buildRows_map_date_sublist
      (dailyData (ps.filter (purchaseInWindow fs fe))
        (ss.filter (saleInWindow fs fe)))
      (List.insertionSort (fun a b : Int => a ≤ b)
        ((dailyData (ps.filter (purchaseInWindow fs fe))
          (ss.filter (saleInWindow fs fe))).map Prod.fst))
      (openingStockForPeriod q ps ss fs)
    exact List.pairwise_map.mp (List.Pairwise.sublist hsub hsorted)
  · rw [stockMovementsPerEvent_eq]
    have hsorted : List.Sorted byCreatedAt
        (List.insertionSort byCreatedAt
          (ps.map purchaseMovement ++ ss.map saleMovement)) :=
      List.sorted_insertionSort _ _
    have h1 : List.Pairwise (fun a b : Int => a ≤ b)
        ((walkE (List.insertionSort byCreatedAt
            (ps.map purchaseMovement ++ ss.map saleMovement))
          (q - sumBy MovementE.quantityChange
            (List.insertionSort byCreatedAt
              (ps.map purchaseMovement ++ ss.map saleMovement)))).map
          StockMovementE.createdAt) := by
      rw [walkE_map_createdAt]
      exact List.pairwise_map.mpr hsorted
    exact List.pairwise_map.mp h1

/-- Claim C6: window exclusion.  With no `windowStart` the opening stock
for the window is the absolute initial stock; with a `windowStart`, the
quantities purchased and sold strictly before it are added to (resp.
subtracted from) the opening stock, while every output row is dated at or
after `windowStart` — so an event strictly before the window start yields
no row but still moves the opening balance. -/
theorem window_exclusion (q st : Int) (fe : Option Int)
    (ps : List Purchase) (ss : List SaleItem) :
    openingStockForPeriod q ps ss none = absoluteInitialStock q ps ss ∧
    openingStockForPeriod q ps ss (some st) =
      absoluteInitialStock q ps ss +
        ((ps.filter (fun p => decide (p.purchase_date < st))).map
          Purchase.quantity).sum -
        ((ss.filter (fun s => match saleDate s with
            | none => false
            | some d => decide (d < st))).map SaleItem.quantity).sum ∧
    ∀ r ∈ stockMovementsDaily q ps ss (some st) fe, st ≤ r.date := by
  refine ⟨rfl, ?_, ?_⟩
  · show absoluteInitialStock q ps ss + (_ - _) = _
    rw [sumBy_eq_sum_map, sumBy_eq_sum_map]
    ring
  · intro r hr
    rw [stockMovementsDaily_eq] at hr
    have hdate : r.date ∈ (buildRows
        (dailyData (ps.filter (purchaseInWindow (some st) fe))
          (ss.filter (saleInWindow (some st) fe)))
        (List.insertionSort (fun a b : Int => a ≤ b)
          ((dailyData (ps.filter (purchaseInWindow (some st) fe))
            (ss.filter (saleInWindow (some st) fe))).map Prod.fst))
        (openingStockForPeriod q ps ss (some st))).map StockMovement.date :=
      List.mem_map_of_mem StockMovement.date hr
    have hmem : r.date ∈ List.insertionSort (fun a b : Int => a ≤ b)
        ((dailyData (ps.filter (purchaseInWindow (some st) fe))
          (ss.filter (saleInWindow (some st) fe))).map Prod.fst) :=
      (buildRows_map_date_sublist _ _ _).subset hdate
    have hmem2 : r.date ∈ dayKeys
        (dailyData (ps.filter (purchaseInWindow (some st) fe))
          (ss.filter (saleInWindow (some st) fe))) :=
      ((List.perm_insertionSort (fun a b : Int => a ≤ b) _).mem_iff).mp hmem
    rcases (mem_dayKeys_dailyData _ _ _).mp hmem2 with
      ⟨p, hp, hpd⟩ | ⟨s, hs, hsd⟩
    · have hfp : purchaseInWindow (some st) fe p = true :=
        List.of_mem_filter hp
      unfold purchaseInWindow at hfp
      rw [Bool.and_eq_true] at hfp
      have := of_decide_eq_true hfp.1
      rw [← hpd]
      exact this
    · have hfs : saleInWindow (some st) fe s = true := List.of_mem_filter hs
      unfold saleInWindow at hfs
      rw [hsd, Bool.and_eq_true] at hfs
      exact of_decide_eq_true hfs.1

/-- The purchase of the C6 witness: 2 units on day 5. -/
def w6Purchase : Purchase :=
  { id := 61, purchase_date := 5, created_at := 1, quantity := 2,
    reference_invoice := none }

/-- The single per-day row of the C6 witness scenario. -/
def w6Row : StockMovement :=
  { date := 5, invoice := "", openingStock := 5, purchase := 2,
    total := 7, sale := 0, closingStock := 7 }

/-- Witness for C6 at concrete inputs: the opening stock with no window
start equals the absolute initial stock, and the sole row of the
window-start-3 report is dated at or after day 3. -/
theorem window_exclusion_witness :
    openingStockForPeriod 7 [w6Purchase] [] none =
      absoluteInitialStock 7 [w6Purchase] [] ∧
    (3 : Int) ≤ w6Row.date :=
  ⟨(window_exclusion 7 3 none [w6Purchase] []).1,
   (window_exclusion 7 3 none [w6Purchase] []).2.2 w6Row (by decide)⟩

/-! ### Permutation invariance helpers for C4 -/

theorem absoluteInitialStock_perm (q : Int) {ps ps' : List Purchase}
    {ss ss' : List SaleItem} (hp : ps.Perm ps') (hs : ss.Perm ss') :
    absoluteInitialStock q ps ss = absoluteInitialStock q ps' ss' := by
  unfold absoluteInitialStock
  rw [sumBy_perm Purchase.quantity hp, sumBy_perm SaleItem.quantity hs]

theorem openingStockForPeriod_perm (q : Int) (fs : Option Int)
    {ps ps' : List Purchase} {ss ss' : List SaleItem}
    (hp : ps.Perm ps') (hs : ss.Perm ss') :
    openingStockForPeriod q ps ss fs = openingStockForPeriod q ps' ss' fs := by
  cases fs with
  | none => exact absoluteInitialStock_perm q hp hs
  | some st =>
      show absoluteInitialStock q ps ss +
          (sumBy Purchase.quantity
            (ps.filter (fun p => decide (p.purchase_date < st))) -
           sumBy SaleItem.quantity
            (ss.filter (fun s => match saleDate s with
              | none => false
              | some d => decide (d < st)))) =
        absoluteInitialStock q ps' ss' +
          (sumBy Purchase.quantity
            (ps'.filter (fun p => decide (p.purchase_date < st))) -
           sumBy SaleItem.quantity
            (ss'.filter (fun s => match saleDate s with
              | none => false
              | some d => decide (d < st))))
      rw [absoluteInitialStock_perm q hp hs,
        sumBy_perm Purchase.quantity (hp.filter _),
        sumBy_perm SaleItem.quantity (hs.filter _)]

theorem isSome_congr {o₁ o₂ : Option α} (h : o₁ = none ↔ o₂ = none) :
    o₁.isSome = o₂.isSome := by
  cases o₁ <;> cases o₂ <;> simp_all

theorem dailyData_perm_getDay_isSome {ps ps' : List Purchase}
    {ss ss' : List SaleItem} (hp : ps.Perm ps') (hs : ss.Perm ss')
    (d : Int) :
    (getDay (dailyData ps ss) d).isSome =
      (getDay (dailyData ps' ss') d).isSome := by
  apply isSome_congr
  rw [getDay_eq_none_iff, getDay_eq_none_iff]
  rw [not_iff_not, mem_dayKeys_dailyData, mem_dayKeys_dailyData]
  constructor
  · rintro (⟨p, hpm, hpd⟩ | ⟨s, hsm, hsd⟩)
    · exact Or.inl ⟨p, hp.mem_iff.mp hpm, hpd⟩
    · exact Or.inr ⟨s, hs.mem_iff.mp hsm, hsd⟩
  · rintro (⟨p, hpm, hpd⟩ | ⟨s, hsm, hsd⟩)
    · exact Or.inl ⟨p, hp.mem_iff.mpr hpm, hpd⟩
    · exact Or.inr ⟨s, hs.mem_iff.mpr hsm, hsd⟩

theorem dailyData_perm_dayKeys {ps ps' : List Purchase}
    {ss ss' : List SaleItem} (hp : ps.Perm ps') (hs : ss.Perm ss') :
    (dayKeys (dailyData ps ss)).Perm (dayKeys (dailyData ps' ss')) := by
  rw [List.perm_ext_iff_of_nodup (nodup_dayKeys_dailyData ps ss)
    (nodup_dayKeys_dailyData ps' ss')]
  intro d
  rw [mem_dayKeys_dailyData, mem_dayKeys_dailyData]
  constructor
  · rintro (⟨p, hpm, hpd⟩ | ⟨s, hsm, hsd⟩)
    · exact Or.inl ⟨p, hp.mem_iff.mp hpm, hpd⟩
    · exact Or.inr ⟨s, hs.mem_iff.mp hsm, hsd⟩
  · rintro (⟨p, hpm, hpd⟩ | ⟨s, hsm, hsd⟩)
    · exact Or.inl ⟨p, hp.mem_iff.mpr hpm, hpd⟩
    · exact Or.inr ⟨s, hs.mem_iff.mpr hsm, hsd⟩

/-- The strict version of the per-event sort order. -/
def byCreatedLT (a b : MovementE) : Prop := a.createdAt < b.createdAt

instance : IsAntisymm MovementE byCreatedLT :=
  ⟨fun a b h1 h2 => absurd (lt_trans h1 h2) (lt_irrefl _)⟩

theorem sorted_byCreatedLT_of_nodup (l : List MovementE)
    (hsorted : List.Sorted byCreatedAt l)
    (hnodup : (l.map MovementE.createdAt).Nodup) :
    List.Sorted byCreatedLT l := by
  have hne : List.Pairwise
      (fun a b : MovementE => a.createdAt ≠ b.createdAt) l :=
    List.pairwise_map.mp hnodup
  exact (hsorted.and hne).imp (fun h => lt_of_le_of_ne h.1 h.2)

/-- One of two same-day purchases of the C4 counterexample (reference
label A). -/
def c4PurchaseA : Purchase :=
  { id := 41, purchase_date := 1, created_at := 1, quantity := 5,
    reference_invoice := some "A" }

/-- One of two same-day purchases of the C4 counterexample (reference
label B). -/
def c4PurchaseB : Purchase :=
  { id := 42, purchase_date := 1, created_at := 2, quantity := 5,
    reference_invoice := some "B" }

/-- Counterexample to claim C4 as stated: swapping two same-day purchases
changes the per-day output, because the aggregated row's reference string
concatenates the labels in input order (A, B versus B, A). -/
theorem order_independence_cx :
    ([c4PurchaseA, c4PurchaseB] : List Purchase).Perm
      [c4PurchaseB, c4PurchaseA] ∧
    stockMovementsDaily 10 [c4PurchaseA, c4PurchaseB] [] none none ≠
      stockMovementsDaily 10 [c4PurchaseB, c4PurchaseA] [] none none := by
  refine ⟨by decide, by decide⟩

/-- Claim C4 (amended): order independence up to reference ordering.  For
every permutation of the purchase and sale lists the per-day output is
identical in every field except the concatenated reference string (whose
label order follows input order); the per-event output is identical
outright whenever the `created_at` timestamps of all events are pairwise
distinct (its sort is stable in `created_at`, so ties keep input order). -/
theorem order_independence (q : Int) (ps ps' : List Purchase)
    (ss ss' : List SaleItem) (fs fe : Option Int)
    (hp : ps.Perm ps') (hs : ss.Perm ss') :
    (stockMovementsDaily q ps ss fs fe).map eraseRefs =
      (stockMovementsDaily q ps' ss' fs fe).map eraseRefs ∧
    ((ps.map Purchase.created_at ++ ss.map SaleItem.created_at).Nodup →
      stockMovementsPerEvent q ps ss = stockMovementsPerEvent q ps' ss') := by
  constructor
  · have hpf : (ps.filter (purchaseInWindow fs fe)).Perm
        (ps'.filter (purchaseInWindow fs fe)) := hp.filter _
    have hsf : (ss.filter (saleInWindow fs fe)).Perm
        (ss'.filter (saleInWindow fs fe)) := hs.filter _
    have hsome := dailyData_perm_getDay_isSome hpf hsf
    have hP : ∀ d,
        entryP (dailyData (ps.filter (purchaseInWindow fs fe))
          (ss.filter (saleInWindow fs fe))) d =
        entryP (dailyData (ps'.filter (purchaseInWindow fs fe))
          (ss'.filter (saleInWindow fs fe))) d := by
      intro d
      rw [entryP_dailyData, entryP_dailyData,
        sumBy_perm Purchase.quantity (hpf.filter _)]
    have hS : ∀ d,
        entryS (dailyData (ps.filter (purchaseInWindow fs fe))
          (ss.filter (saleInWindow fs fe))) d =
        entryS (dailyData (ps'.filter (purchaseInWindow fs fe))
          (ss'.filter (saleInWindow fs fe))) d := by
      intro d
      rw [entryS_dailyData, entryS_dailyData,
        sumBy_perm SaleItem.quantity (hsf.filter _)]
    have hdates : List.insertionSort (fun a b : Int => a ≤ b)
        ((dailyData (ps.filter (purchaseInWindow fs fe))
          (ss.filter (saleInWindow fs fe))).map Prod.fst) =
        List.insertionSort (fun a b : Int => a ≤ b)
          ((dailyData (ps'.filter (purchaseInWindow fs fe))
            (ss'.filter (saleInWindow fs fe))).map Prod.fst) := by
      have hkeys := dailyData_perm_dayKeys hpf hsf
      exact List.eq_of_perm_of_sorted
        ((List.perm_insertionSort _ _).trans
          (hkeys.trans (List.perm_insertionSort _ _).symm))
        (List.sorted_insertionSort _ _) (List.sorted_insertionSort _ _)
    rw [stockMovementsDaily_eq, stockMovementsDaily_eq, hdates,
      openingStockForPeriod_perm q fs hp hs]
    exact buildRows_congr _ _ hsome hP hS _ _
  · intro hcre
    rw [stockMovementsPerEvent_eq, stockMovementsPerEvent_eq]
    suffices hseq : List.insertionSort byCreatedAt
        (ps.map purchaseMovement ++ ss.map saleMovement) =
        List.insertionSort byCreatedAt
          (ps'.map purchaseMovement ++ ss'.map saleMovement) by
      rw [hseq]
    have hmerge : (ps.map purchaseMovement ++ ss.map saleMovement).Perm
        (ps'.map purchaseMovement ++ ss'.map saleMovement) :=
      (hp.map purchaseMovement).append (hs.map saleMovement)
    have hperm2 : (List.insertionSort byCreatedAt
        (ps.map purchaseMovement ++ ss.map saleMovement)).Perm
        (List.insertionSort byCreatedAt
          (ps'.map purchaseMovement ++ ss'.map saleMovement)) :=
      (List.perm_insertionSort _ _).trans
        (hmerge.trans (List.perm_insertionSort _ _).symm)
    have hmap1 : ((ps.map purchaseMovement ++ ss.map saleMovement).map
        MovementE.createdAt).Perm
        (ps.map Purchase.created_at ++ ss.map SaleItem.created_at) := by
      rw [List.map_append, List.map_map, List.map_map]
      exact List.Perm.refl _
    have hmap2 : ((ps'.map purchaseMovement ++ ss'.map saleMovement).map
        MovementE.createdAt).Perm
        (ps'.map Purchase.created_at ++ ss'.map SaleItem.created_at) := by
      rw [List.map_append, List.map_map, List.map_map]
      exact List.Perm.refl _
    have hcre2 : (ps'.map Purchase.created_at ++
        ss'.map SaleItem.created_at).Nodup :=
      (((hp.map Purchase.created_at).append
        (hs.map SaleItem.created_at)).nodup_iff).mp hcre
    have hn1 : ((List.insertionSort byCreatedAt
        (ps.map purchaseMovement ++ ss.map saleMovement)).map
          MovementE.createdAt).Nodup := by
      have hch : ((List.insertionSort byCreatedAt
          (ps.map purchaseMovement ++ ss.map saleMovement)).map
            MovementE.createdAt).Perm
          (ps.map Purchase.created_at ++ ss.map SaleItem.created_at) :=
        ((List.perm_insertionSort _ _).map _).trans hmap1
      exact hch.nodup_iff.mpr hcre
    have hn2 : ((List.insertionSort byCreatedAt
        (ps'.map purchaseMovement ++ ss'.map saleMovement)).map
          MovementE.createdAt).Nodup := by
      have hch : ((List.insertionSort byCreatedAt
          (ps'.map purchaseMovement ++ ss'.map saleMovement)).map
            MovementE.createdAt).Perm
          (ps'.map Purchase.created_at ++ ss'.map SaleItem.created_at) :=
        ((List.perm_insertionSort _ _).map _).trans hmap2
      exact hch.nodup_iff.mpr hcre2
    exact List.eq_of_perm_of_sorted hperm2
      (sorted_byCreatedLT_of_nodup _ (List.sorted_insertionSort _ _) hn1)
      (sorted_byCreatedLT_of_nodup _ (List.sorted_insertionSort _ _) hn2)

/-- One purchase of the C4 witness pair. -/
def w4a : Purchase :=
  { id := 43, purchase_date := 2, created_at := 1, quantity := 3,
    reference_invoice := some "W4A" }

/-- The other purchase of the C4 witness pair. -/
def w4b : Purchase :=
  { id := 44, purchase_date := 9, created_at := 2, quantity := 6,
    reference_invoice := some "W4B" }

/-- Witness for the amended C4 at concrete swapped inputs with distinct
`created_at` timestamps. -/
theorem order_independence_witness :
    (stockMovementsDaily 10 [w4a, w4b] [] none none).map eraseRefs =
      (stockMovementsDaily 10 [w4b, w4a] [] none none).map eraseRefs ∧
    stockMovementsPerEvent 10 [w4a, w4b] [] =
      stockMovementsPerEvent 10 [w4b, w4a] [] :=
  ⟨(order_independence 10 [w4a, w4b] [w4b, w4a] [] [] none none
      (by decide) (by decide)).1,
   (order_independence 10 [w4a, w4b] [w4b, w4a] [] [] none none
      (by decide) (by decide)).2 (by decide)⟩

/-! ### Lemmas for `deleteInvoice` -/

theorem lookupStock_setStock_self (l : List (String × Int)) (k : String)
    (v0 n : Int) (h : lookupStock l k = some v0) :
    lookupStock (setStock l k n) k = some n := by
  induction l with
  | nil => simp [lookupStock] at h
  | cons hd tl ih =>
      obtain ⟨k', v'⟩ := hd
      by_cases h0 : k' = k
      · simp [setStock, h0, lookupStock]
      · simp only [lookupStock, if_neg h0] at h
        simp [setStock, h0, lookupStock, ih h]

theorem lookupStock_setStock_ne (l : List (String × Int)) (k k' : String)
    (n : Int) (h : k' ≠ k) :
    lookupStock (setStock l k n) k' = lookupStock l k' := by
  induction l with
  | nil => simp [setStock, lookupStock, Ne.symm h]
  | cons hd tl ih =>
      obtain ⟨k0, v0⟩ := hd
      by_cases h0 : k0 = k
      · subst h0
        simp [setStock, lookupStock, Ne.symm h]
      · simp [setStock, lookupStock, h0, ih]

theorem creditItems_lookup :
    ∀ (items : List DBItem) (prods prods' : List (String × Int)),
      creditItems prods items = Except.ok prods' →
      ∀ pid, lookupStock prods' pid =
        (lookupStock prods pid).map
          (fun stock => stock +
            sumBy DBItem.quantity
              (items.filter (fun it => decide (it.product_id = pid)))) := by
  intro items
  induction items with
  | nil =>
      intro prods prods' h pid
      simp only [creditItems, Except.ok.injEq] at h
      subst h
      simp [sumBy_nil]
  | cons item rest ih =>
      intro prods prods' h pid
      simp only [creditItems] at h
      cases hl : lookupStock prods item.product_id with
      | none => rw [hl] at h; exact Except.noConfusion h
      | some stock =>
          rw [hl] at h
          have hrec := ih _ _ h pid
          by_cases hpid : item.product_id = pid
          · subst hpid
            rw [hrec,
              lookupStock_setStock_self prods item.product_id stock _ hl, hl]
            simp [List.filter_cons, sumBy_cons]
            ring
          · rw [hrec, lookupStock_setStock_ne prods item.product_id pid _
              (Ne.symm hpid)]
            simp [List.filter_cons, hpid]

/-- Claim C8: deleting an invoice credits back the stock its line items
debited.  On success, every product's stock rises by exactly the summed
quantities of the deleted invoice's items referencing it (zero for
unreferenced products), and the invoice row and all its items are gone
from the resulting state. -/
theorem delete_invoice_credit_back (db : DB) (invId : String) (db' : DB)
    (h : deleteInvoice db invId = Except.ok db') :
    (∀ pid, lookupStock db'.products pid =
      (lookupStock db.products pid).map
        (fun stock => stock +
          sumBy DBItem.quantity
            (((db.invoice_items.filter (fun it => it.1 = invId)).map
              Prod.snd).filter (fun it => decide (it.product_id = pid))))) ∧
    invId ∉ db'.invoices ∧
    ∀ it ∈ db'.invoice_items, it.1 ≠ invId := by
  unfold deleteInvoice at h
  by_cases hmem : invId ∈ db.invoices
  · rw [if_pos hmem] at h
    have h2 : (match creditItems db.products
        ((db.invoice_items.filter (fun it => it.1 = invId)).map Prod.snd) with
      | Except.error e => (Except.error e : Except String DB)
      | Except.ok products' =>
          Except.ok
            { products := products'
              invoices := db.invoices.filter (fun i => i ≠ invId)
              invoice_items :=
                db.invoice_items.filter (fun it => ¬ it.1 = invId) }) =
        Except.ok db' := h
    cases hc : creditItems db.products
        ((db.invoice_items.filter (fun it => it.1 = invId)).map Prod.snd) with
    | error e =>
        rw [hc] at h2
        exact Except.noConfusion h2
    | ok products' =>
        rw [hc] at h2
        simp only [Except.ok.injEq] at h2
        subst h2
        refine ⟨creditItems_lookup _ _ _ hc, ?_, ?_⟩
        · intro hmem'
          have := List.of_mem_filter hmem'
          simp at this
        · intro it hit
          have := List.of_mem_filter hit
          simpa using this
  · rw [if_neg hmem] at h
    exact Except.noConfusion h

/-- The database state of the C8 witness: two products, two invoices,
three items. -/
def w8db : DB :=
  { products := [("prodA", 3), ("prodB", 7)]
    invoices := ["inv1", "inv2"]
    invoice_items := [("inv1", { product_id := "prodA", quantity := 2 }),
                      ("inv1", { product_id := "prodA", quantity := 4 }),
                      ("inv2", { product_id := "prodB", quantity := 1 })] }

/-- The database state after deleting `inv1` from `w8db`. -/
def w8db' : DB :=
  { products := [("prodA", 9), ("prodB", 7)]
    invoices := ["inv2"]
    invoice_items := [("inv2", { product_id := "prodB", quantity := 1 })] }

/-- Witness for C8: deleting `inv1` credits its two items (2 + 4) back
onto product A and removes the invoice and its items. -/
theorem delete_invoice_credit_back_witness :
    lookupStock w8db'.products "prodA" =
      (lookupStock w8db.products "prodA").map
        (fun stock => stock +
          sumBy DBItem.quantity
            (((w8db.invoice_items.filter (fun it => it.1 = "inv1")).map
              Prod.snd).filter
              (fun it => decide (it.product_id = "prodA")))) ∧
    "inv1" ∉ w8db'.invoices :=
  ⟨(delete_invoice_credit_back w8db "inv1" w8db' (by rfl)).1 "prodA",
   (delete_invoice_credit_back w8db "inv1" w8db' (by rfl)).2.1⟩

/-- A sample row used by the pagination witness. -/
def w10Row : StockMovement :=
  { date := 1, invoice := "W10", openingStock := 0, purchase := 2,
    total := 2, sale := 1, closingStock := 1 }

/-- Witness for C10 at a concrete one-row list and page 1. -/
theorem pagination_partition_witness :
    paginatedMovements [w10Row] 1 =
      (([w10Row] : List StockMovement).drop ((1 - 1) * ITEMS_PER_PAGE)).take
        ITEMS_PER_PAGE ∧
    (paginatedMovements [w10Row] 1).length ≤ ITEMS_PER_PAGE ∧
    ((List.range (totalPages [w10Row])).map
      (fun i => paginatedMovements [w10Row] (i + 1))).flatten = [w10Row] :=
  pagination_partition [w10Row] 1 (by decide)

end Biotech
